import Mathlib

/-
Verification of the moss CLI sync / state / render modules.

The definitions below are a shallow embedding of the Rust sources
`src/moss/src/cli/sync.rs`, `src/moss/src/cli/state.rs` and
`src/moss/src/package/render.rs`.  Pure code is translated to Lean
functions; the effectful orchestrator `sync::handle` is translated to a
pure function over an environment `SyncEnv` that packages the external
collaborators (registry lookups, transaction resolution, confirmation
dialog, package cache, state database), returning its result together
with a trace of the externally visible calls (`Event`).
-/

namespace Moss

/-- Package metadata, embedding the fields of moss `package::Meta` used by
the CLI code.  Provider capability tokens are kept as plain strings. -/
structure Meta where
  name : String
  version_identifier : String
  source_release : Nat
  build_release : Nat
  providers : List String
  deriving DecidableEq

/-- Package flags, embedding moss `package::Flags`. -/
structure Flags where
  explicit : Bool
  installed : Bool
  available : Bool
  deriving DecidableEq

/-- A package, embedding moss `Package`: an opaque id plus metadata and flags.
The id is an opaque stable identifier; we model it as a string. -/
structure Package where
  id : String
  meta : Meta
  flags : Flags
  deriving DecidableEq

/-- A selection in a state, embedding moss `state::Selection`. -/
structure Selection where
  package : String
  explicit : Bool
  reason : Option String
  deriving DecidableEq

/-- A system model, embedding the `packages` field of moss `SystemModel`
(a `BTreeSet<Provider>`); the list models its iteration order. -/
structure SystemModel where
  packages : List String
  deriving DecidableEq

/-- Transaction lookup strategy, embedding `registry::transaction::Lookup`. -/
inductive Lookup where
  | preferAvailable
  | availableOnly
  deriving DecidableEq

/-- Errors of `sync::handle`, embedding the `sync::Error` variants reachable
in the embedded control flow.  Collaborator error payloads are elided. -/
inductive Error where
  | missingSystemModelPackage (provider : String)
  | cancelled
  | client
  | db
  | dialog
  deriving DecidableEq

/-- Externally visible calls made by `sync::handle`, in order. -/
inductive Event where
  | txCreated (strategy : Lookup) (seeds : List String)
  | confirmPrompt
  | cachePackages (ids : List String)
  | newState (selections : List Selection)
  | printNoPackagesToSync
  deriving DecidableEq

/-- Default answer of the confirmation prompt, embedding `.default(false)`
on the `Confirm` dialog in `sync::handle`. -/
def confirmDefault : Bool := false

/-- Environment of one `sync` invocation: the command inputs together with
the external collaborators `handle` interacts with.  `by_name_available`
embeds `registry.by_name(name, Flags::new().with_available())` and
`by_provider_available` embeds
`registry.by_provider_id_only(p, Flags::default().with_available())`,
both already ordered by repository priority (highest first).
`txResult strategy seeds` embeds the combined
`registry.transaction(strategy)`, `tx.add(seeds)`, `tx.finalize()` and
`client.resolve_packages` pipeline.  `confirm_answer` is the dialog
outcome, `some b` a user answer and `none` the prompt default.
`system_model` is the combined result of `--import` loading and
`installation.system_model`. -/
structure SyncEnv where
  yesAll : Bool
  is_ephemeral : Bool
  system_model : Option SystemModel
  list_installed : List Package
  by_name_available : String → List Package
  by_provider_available : String → List Package
  txResult : Lookup → List String → Except Error (List Package)
  confirm_answer : Except Unit (Option Bool)
  cache_packages : List String → Except Unit Unit
  active_state : Option Int
  state_db : Int → Except Unit (List Selection)
  new_state : List Selection → Except Unit Unit

/-- Embeds the provider lookup loop of `resolve_with_system_model`
(`sync.rs` lines 295–305): each declared provider is resolved to the
first available candidate, and the first provider with no candidate
aborts the whole collection, as `collect::<Result<Vec<_>, _>>()` does. -/
def lookupModelPackages (by_provider : String → List Package) : List String → Except String (List Package)
  | [] => Except.ok []
  | p :: rest =>
    match (by_provider p).head? with
    | none => Except.error p
    | some pkg =>
      match lookupModelPackages by_provider rest with
      | Except.error q => Except.error q
      | Except.ok pkgs => Except.ok (pkg :: pkgs)

/-- Embeds `resolve_with_system_model` (`sync.rs` lines 293–313): resolve
each declared provider, then complete transitives in an `AvailableOnly`
transaction.  The event records that a transaction was created, with its
strategy and seed ids; no event is emitted when the provider lookup
fails, since the code returns before `registry.transaction` is called. -/
def resolveWithSystemModel (env : SyncEnv) (m : SystemModel) : Except Error (List Package) × List Event :=
  match lookupModelPackages env.by_provider_available m.packages with
  | Except.error p => (Except.error (Error.missingSystemModelPackage p), [])
  | Except.ok packages =>
    let seeds := packages.map (fun pkg => pkg.id)
    (env.txResult Lookup.availableOnly seeds, [Event.txCreated Lookup.availableOnly seeds])

/-- Embeds the `with_sync` computation of `resolve_with_installed`
(`sync.rs` lines 254–277): for each explicit installed package, substitute
the first available same-named candidate unless its id is already among
the ids of all installed packages; non-explicit packages are skipped. -/
def with_sync (by_name : String → List Package) (packages : List Package) : List String :=
  let all_ids := packages.map (fun p => p.id)
  packages.filterMap (fun p =>
    if !p.flags.explicit then none
    else
      match (by_name p.meta.name).head? with
      | some lookup =>
        if !(all_ids.contains lookup.id) then some lookup.id else some p.id
      | none => some p.id)

/-- Embeds `resolve_with_installed` (`sync.rs` lines 253–286): seed a
`PreferAvailable` transaction with the sync-substituted explicit installed
packages and resolve it. -/
def resolveWithInstalled (env : SyncEnv) (packages : List Package) : Except Error (List Package) × List Event :=
  let seeds := with_sync env.by_name_available packages
  (env.txResult Lookup.preferAvailable seeds, [Event.txCreated Lookup.preferAvailable seeds])

/-- Embeds the resolution dispatch of `handle` (`sync.rs` lines 86–90). -/
def resolvePhase (env : SyncEnv) : Except Error (List Package) × List Event :=
  match env.system_model with
  | some m => resolveWithSystemModel env m
  | none => resolveWithInstalled env env.list_installed

/-- Embeds the `synced` filter of `handle` (`sync.rs` lines 113–116):
all finalized packages when ephemeral, otherwise those whose id is not
the id of any installed package. -/
def syncedList (ephemeral : Bool) (finalized installed : List Package) : List Package :=
  finalized.filter (fun p => ephemeral || !(installed.any (fun i => i.id == p.id)))

/-- Embeds the `removed` filter of `handle` (`sync.rs` lines 117–121):
installed packages whose name equals no finalized package's name. -/
def removedList (finalized installed : List Package) : List Package :=
  installed.filter (fun p => !(finalized.any (fun f => f.meta.name == p.meta.name)))

/-- Embeds the system-model selection mapping of `handle` (`sync.rs`
lines 182–198): a package is explicit iff the model's declared package set
intersects its provider set, and the reason is always `None`. -/
def newSelectionsModel (m : SystemModel) (finalized : List Package) : List Selection :=
  finalized.map (fun p =>
    let is_explicit := m.packages.any (fun q => p.meta.providers.contains q)
    { package := p.id, explicit := is_explicit, reason := none })

/-- Embeds the `lookup_id` computation of `handle` (`sync.rs`
lines 209–213): the id of the first same-named installed package, or the
package's own id when there is none. -/
def lookup_id (installed : List Package) (p : Package) : String :=
  ((installed.find? (fun i => i.meta.name == p.meta.name)).map (fun i => i.id)).getD p.id

/-- Embeds the installed-mode selection mapping of `handle` (`sync.rs`
lines 206–231): look up the previous selection via `lookup_id`, carry its
explicit flag and reason over under the new id, and default to a
non-explicit, reasonless selection otherwise. -/
def newSelectionsInstalled (installed : List Package) (previous_selections : List Selection)
    (finalized : List Package) : List Selection :=
  finalized.map (fun p =>
    match previous_selections.find? (fun s => s.package == lookup_id installed p) with
    | some s => { s with package := p.id }
    | none => { package := p.id, explicit := false, reason := none })

/-- Embeds the `new_selections` computation of `handle` (`sync.rs`
lines 182–232), including the previous-state fetch of lines 201–204. -/
def selectionPhase (env : SyncEnv) (installed finalized : List Package) : Except Error (List Selection) :=
  match env.system_model with
  | some m => Except.ok (newSelectionsModel m finalized)
  | none =>
    match env.active_state with
    | some id =>
      match env.state_db id with
      | Except.error _ => Except.error Error.db
      | Except.ok previous_selections =>
        Except.ok (newSelectionsInstalled installed previous_selections finalized)
    | none => Except.ok (newSelectionsInstalled installed [] finalized)

/-- Embeds the selection build and `client.new_state` commit of `handle`
(`sync.rs` lines 182–235). -/
def statePhase (env : SyncEnv) (installed finalized : List Package) (evs : List Event) :
    Except Error Unit × List Event :=
  match selectionPhase env installed finalized with
  | Except.error e => (Except.error e, evs)
  | Except.ok new_selections =>
    match env.new_state new_selections with
    | Except.error _ => (Except.error Error.client, evs ++ [Event.newState new_selections])
    | Except.ok _ => (Except.ok (), evs ++ [Event.newState new_selections])

/-- Embeds the `cache_packages` fetch of `handle` (`sync.rs` line 170):
a fetch failure propagates before any state is committed. -/
def cachePhase (env : SyncEnv) (installed finalized synced : List Package) (evs : List Event) :
    Except Error Unit × List Event :=
  let ids := synced.map (fun p => p.id)
  match env.cache_packages ids with
  | Except.error _ => (Except.error Error.client, evs ++ [Event.cachePackages ids])
  | Except.ok _ => statePhase env installed finalized (evs ++ [Event.cachePackages ids])

/-- Embeds the confirmation step of `handle` (`sync.rs` lines 147–158):
auto-approved under yes-to-all, otherwise an interactive prompt whose
default answer is `confirmDefault`; a declined confirmation returns
`Error.cancelled` before the cache and state phases run. -/
def confirmPhase (env : SyncEnv) (installed finalized synced : List Package) (evs : List Event) :
    Except Error Unit × List Event :=
  if env.yesAll then cachePhase env installed finalized synced evs
  else
    match env.confirm_answer with
    | Except.error _ => (Except.error Error.dialog, evs ++ [Event.confirmPrompt])
    | Except.ok answer =>
      if answer.getD confirmDefault then
        cachePhase env installed finalized synced (evs ++ [Event.confirmPrompt])
      else (Except.error Error.cancelled, evs ++ [Event.confirmPrompt])

/-- Embeds the diff and no-op check of `handle` (`sync.rs` lines 109–132)
and the phases that follow. -/
def afterResolve (env : SyncEnv) (installed finalized : List Package) (evs : List Event) :
    Except Error Unit × List Event :=
  let synced := syncedList env.is_ephemeral finalized installed
  let removed := removedList finalized installed
  if synced.isEmpty && removed.isEmpty then
    (Except.ok (), evs ++ [Event.printNoPackagesToSync])
  else confirmPhase env installed finalized synced evs

/-- Embeds `sync::handle` (`sync.rs` lines 55–246), from resolution to the
state commit, as a pure function from the environment to the result and
the trace of externally visible calls. -/
def handle (env : SyncEnv) : Except Error Unit × List Event :=
  match resolvePhase env with
  | (Except.error e, evs) => (Except.error e, evs)
  | (Except.ok finalized, evs) => afterResolve env env.list_installed finalized evs

/-- Destination of a `state export`, embedding the two output arms of
`export` in `state.rs` (stdout vs `fs::write` to a path). -/
inductive ExportDest where
  | stdout
  | file (path : String)
  deriving DecidableEq

/-- Embeds the `format_filename` closure of `export` (`state.rs`
lines 203–209): the default filename, with the hostname included when it
is available. -/
def format_filename (hostname : Option String) (id : Int) : String :=
  match hostname with
  | some h => "system-model-" ++ h ++ "-fstxn-" ++ toString id ++ ".kdl"
  | none => "system-model-fstxn-" ++ toString id ++ ".kdl"

/-- Models Rust `Path::join` for the relative filenames used by `export`. -/
def pathJoin (dir file : String) : String := dir ++ "/" ++ file

/-- Embeds the destination selection of `export` (`state.rs`
lines 201–229): `output` is `--output` (`None` absent, `Some None` given
without a path, `Some (Some p)` given with a path), `hostname` the
`gethostname` result and `is_dir` the `path.is_dir()` collaborator. -/
def exportDestination (output : Option (Option String)) (hostname : Option String)
    (is_dir : String → Bool) (id : Int) : ExportDest :=
  match output with
  | none => ExportDest.stdout
  | some maybe_path =>
    match maybe_path with
    | some path =>
      if is_dir path then ExportDest.file (pathJoin path (format_filename hostname id))
      else ExportDest.file path
    | none => ExportDest.file (pathJoin "." (format_filename hostname id))

/-- Version/release pair of a rendered row, embedding `Revision` in `state.rs`. -/
structure Revision where
  version : String
  release : Nat
  deriving DecidableEq

/-- A rendered selection row, embedding `Format` in `state.rs`. -/
structure Format where
  name : String
  revision : Revision
  explicit : Bool
  deriving DecidableEq

/-- Embeds `print_state_selections` (`state.rs` lines 252–285): the rows a
state query actually renders.  A selection contributes a row only when
`registry.by_id` (here `by_id`) yields a package for its id; unresolvable
selections are dropped by the `filter_map`. -/
def print_state_selections (by_id : String → List Package) (selections : List Selection) : List Format :=
  selections.filterMap (fun s =>
    (by_id s.package).head?.map (fun pkg =>
      Format.mk pkg.meta.name (Revision.mk pkg.meta.version_identifier pkg.meta.source_release) s.explicit))

/-- A segment of a rendered string, embedding `Segment` in `render.rs`
(the `Section` constructor is named `sect`, `section` being reserved).
Section payloads are kept as character lists. -/
inductive Segment where
  | delim (c : Char)
  | sect (t : List Char)
  deriving DecidableEq

/-- Characters of a segment. -/
def segText : Segment → List Char
  | Segment.delim c => [c]
  | Segment.sect t => t

/-- Embeds `Segment::to_section` in `render.rs`. -/
def toSection : Segment → Option (List Char)
  | Segment.sect t => some t
  | Segment.delim _ => none

/-- Concatenation of the characters of a segment list. -/
def flattenSegments : List Segment → List Char
  | [] => []
  | seg :: rest => segText seg ++ flattenSegments rest

/-- Embeds one step of the fold in `to_segments` (`render.rs`
lines 129–141): an alphanumeric character extends a trailing section or
starts a new one; any other character becomes a single delimiter.  The
classifier `alnum` stands for Rust `char::is_alphanumeric`. -/
def segPush (alnum : Char → Bool) (acc : List Segment) (c : Char) : List Segment :=
  if alnum c then
    match acc.getLast? with
    | some (Segment.sect t) => acc.dropLast ++ [Segment.sect (t ++ [c])]
    | _ => acc ++ [Segment.sect [c]]
  else acc ++ [Segment.delim c]

/-- Embeds `to_segments` (`render.rs` lines 128–142). -/
def to_segments (alnum : Char → Bool) (s : List Char) : List Segment :=
  s.foldl (segPush alnum) []

/-- Styles applied by `color_diff` in `render.rs`. -/
inductive Style where
  | red
  | greenBold
  | dim
  deriving DecidableEq

/-- One output piece of `color_diff`: delimiters are pushed plain,
sections are pushed with a style. -/
inductive Chunk where
  | plain (c : Char)
  | styled (style : Style) (t : List Char)
  deriving DecidableEq

/-- Characters of a chunk, ignoring styling. -/
def chunkText : Chunk → List Char
  | Chunk.plain c => [c]
  | Chunk.styled _ t => t

/-- Concatenation of the characters of a chunk list: the plain text of a
rendered string with all styling removed. -/
def plainText : List Chunk → List Char
  | [] => []
  | chunk :: rest => chunkText chunk ++ plainText rest

/-- Embeds the styling of a section in the tail loop of `color_diff`
(`render.rs` lines 112–123): red when removing, green/bold when adding. -/
def tailChunk (red : Bool) : Segment → Chunk
  | Segment.delim c => Chunk.plain c
  | Segment.sect t => if red then Chunk.styled Style.red t else Chunk.styled Style.greenBold t

/-- Embeds the styling of a matched section pair in the main loop of
`color_diff` (`render.rs` lines 94–104): differing sections are colored,
equal sections are dimmed. -/
def sectionChunk (red : Bool) (a_section b_section : List Char) : Chunk :=
  if a_section ≠ b_section then
    if red then Chunk.styled Style.red b_section else Chunk.styled Style.greenBold b_section
  else Chunk.styled Style.dim b_section

/-- Embeds the two loops of `color_diff` (`render.rs` lines 90–123) over
the section list of `a` and the segment list of `b`: delimiters of `b`
are emitted plain, each section of `b` consumes one section of `a`, and
once the sections of `a` are exhausted the remaining segments of `b` are
emitted by the tail loop (while exhausting `b` first drops the remaining
sections of `a`). -/
def colorDiffAux (red : Bool) : List (List Char) → List Segment → List Chunk
  | [], bs => bs.map (tailChunk red)
  | _ :: _, [] => []
  | a_sections@(_ :: _), Segment.delim c :: bs => Chunk.plain c :: colorDiffAux red a_sections bs
  | a_section :: a_rest, Segment.sect b_section :: bs =>
    sectionChunk red a_section b_section :: colorDiffAux red a_rest bs

/-- Embeds `color_diff` (`render.rs` lines 85–126). -/
def color_diff (alnum : Char → Bool) (a b : List Char) (red : Bool) : List Chunk :=
  colorDiffAux red ((to_segments alnum a).filterMap toSection) (to_segments alnum b)

/-- Well-formedness of a single segment: a delimiter holds one
non-alphanumeric character, a section a nonempty alphanumeric run. -/
def segWF (alnum : Char → Bool) : Segment → Prop
  | Segment.delim c => alnum c = false
  | Segment.sect t => t ≠ [] ∧ ∀ c ∈ t, alnum c = true

/-- Whether a segment is a section. -/
def isSect : Segment → Bool
  | Segment.sect _ => true
  | Segment.delim _ => false

/-- Adjacency constraint of a segment list: two sections are never
adjacent, which makes every section a maximal run. -/
def sepOk (x y : Segment) : Prop := isSect x = false ∨ isSect y = false

/-- Well-formedness of a segment list: every segment is well formed and no
two sections are adjacent. -/
def segsWF (alnum : Char → Bool) (l : List Segment) : Prop :=
  (∀ seg ∈ l, segWF alnum seg) ∧ List.Chain' sepOk l

/-- Helper to build concrete packages for witness instances. -/
def mkPkg (id name : String) (explicit : Bool) (providers : List String) : Package :=
  { id := id
    meta :=
      { name := name, version_identifier := "1", source_release := 1, build_release := 1
        providers := providers }
    flags := { explicit := explicit, installed := false, available := true } }

/-- A concrete package for the C5 witness. -/
def pkgC5 : Package := mkPkg "foo-1" "foo" false ["libfoo", "libbar"]

/-- A concrete system model for the C5 witness. -/
def mC5 : SystemModel := SystemModel.mk ["libfoo"]

/-- A concrete registry lookup for the C9 witness: only id `a-1` resolves. -/
def byIdC9 : String → List Package := fun i => if i == "a-1" then [mkPkg "a-1" "a" true []] else []

/-- Concrete selections for the C9 witness: the second no longer resolves. -/
def selsC9 : List Selection := [Selection.mk "a-1" true none, Selection.mk "gone-1" false none]

/-- Concrete environment for the C2 witness: one package to sync, no
yes-to-all flag, prompt answered with its default. -/
def envC2 : SyncEnv :=
  { yesAll := false, is_ephemeral := false, system_model := none
    list_installed := []
    by_name_available := fun _ => []
    by_provider_available := fun _ => []
    txResult := fun _ _ => Except.ok [mkPkg "a-1" "a" true []]
    confirm_answer := Except.ok none
    cache_packages := fun _ => Except.ok ()
    active_state := none
    state_db := fun _ => Except.ok []
    new_state := fun _ => Except.ok () }

/-- Concrete environment for the C6 witness: a system model declaring a
provider no repository satisfies. -/
def envC6 : SyncEnv :=
  { yesAll := true, is_ephemeral := false
    system_model := some (SystemModel.mk ["p1"])
    list_installed := []
    by_name_available := fun _ => []
    by_provider_available := fun _ => []
    txResult := fun _ _ => Except.ok []
    confirm_answer := Except.ok none
    cache_packages := fun _ => Except.ok ()
    active_state := none
    state_db := fun _ => Except.ok []
    new_state := fun _ => Except.ok () }

/-- Concrete environment for the C7 witness: nothing to sync or remove. -/
def envC7 : SyncEnv :=
  { yesAll := false, is_ephemeral := false, system_model := none
    list_installed := []
    by_name_available := fun _ => []
    by_provider_available := fun _ => []
    txResult := fun _ _ => Except.ok []
    confirm_answer := Except.ok none
    cache_packages := fun _ => Except.ok ()
    active_state := none
    state_db := fun _ => Except.ok []
    new_state := fun _ => Except.ok () }

/-- Concrete installed set for the C1 witness. -/
def instC1 : List Package := [mkPkg "a-1" "a" true []]

/-- Concrete previous selections for the C1 witness. -/
def prevC1 : List Selection := [Selection.mk "a-1" true (some "user")]

/-- Concrete finalized set for the C1 witness: a version bump of `a`. -/
def finC1 : List Package := [mkPkg "a-2" "a" true []]

/-- Concrete environment for the C4 witness: one explicit installed
package with an available same-named candidate. -/
def envC4 : SyncEnv :=
  { yesAll := true, is_ephemeral := false, system_model := none
    list_installed := [mkPkg "a-1" "a" true [], mkPkg "d-1" "d" false []]
    by_name_available := fun n => if n == "a" then [mkPkg "a-2" "a" false []] else []
    by_provider_available := fun _ => []
    txResult := fun _ _ => Except.ok []
    confirm_answer := Except.ok none
    cache_packages := fun _ => Except.ok ()
    active_state := none
    state_db := fun _ => Except.ok []
    new_state := fun _ => Except.ok () }

lemma flattenSegments_append (l₁ l₂ : List Segment) :
    flattenSegments (l₁ ++ l₂) = flattenSegments l₁ ++ flattenSegments l₂ := by
  induction l₁ with
  | nil => simp [flattenSegments]
  | cons seg rest ih => simp [flattenSegments, ih]

lemma segPush_flatten (alnum : Char → Bool) (acc : List Segment) (c : Char) :
    flattenSegments (segPush alnum acc c) = flattenSegments acc ++ [c] := by
  induction acc using List.reverseRecOn with
  | nil =>
    by_cases h : alnum c <;> simp [segPush, h, flattenSegments, segText]
  | append_singleton l x _ =>
    by_cases h : alnum c
    · cases x with
      | delim d =>
        simp [segPush, h, List.getLast?_concat, flattenSegments_append, flattenSegments, segText]
      | sect t =>
        simp [segPush, h, List.getLast?_concat, List.dropLast_concat, flattenSegments_append,
          flattenSegments, segText]
    · simp [segPush, h, flattenSegments_append, flattenSegments, segText]

lemma foldl_segPush_flatten (alnum : Char → Bool) (s : List Char) :
    ∀ acc, flattenSegments (s.foldl (segPush alnum) acc) = flattenSegments acc ++ s := by
  induction s with
  | nil => intro acc; simp
  | cons c s ih =>
    intro acc
    rw [List.foldl_cons, ih, segPush_flatten]
    simp

lemma to_segments_flatten (alnum : Char → Bool) (s : List Char) :
    flattenSegments (to_segments alnum s) = s := by
  rw [to_segments, foldl_segPush_flatten]
  rfl

lemma segPush_segsWF (alnum : Char → Bool) (acc : List Segment) (c : Char)
    (h : segsWF alnum acc) : segsWF alnum (segPush alnum acc c) := by
  obtain ⟨hwf, hchain⟩ := h
  by_cases hc : alnum c
  · induction acc using List.reverseRecOn with
    | nil =>
      refine ⟨?_, ?_⟩ <;> simp [segPush, hc, segWF, List.chain'_singleton]
    | append_singleton l x _ =>
      cases x with
      | delim d =>
        have hpush : segPush alnum (l ++ [Segment.delim d]) c
            = (l ++ [Segment.delim d]) ++ [Segment.sect [c]] := by
          simp [segPush, hc, List.getLast?_concat]
        rw [hpush]
        constructor
        · intro seg hseg
          rcases List.mem_append.mp hseg with h1 | h2
          · exact hwf seg h1
          · have : seg = Segment.sect [c] := by simpa using h2
            subst this
            exact ⟨by simp, by simpa using hc⟩
        · refine List.chain'_append.mpr ⟨hchain, List.chain'_singleton _, ?_⟩
          intro x hx y hy
          have hx' : Segment.delim d = x := by simpa [List.getLast?_concat] using hx
          subst hx'
          exact Or.inl rfl
      | sect t =>
        have hpush : segPush alnum (l ++ [Segment.sect t]) c
            = l ++ [Segment.sect (t ++ [c])] := by
          simp [segPush, hc, List.getLast?_concat, List.dropLast_concat]
        rw [hpush]
        have hsectWF : segWF alnum (Segment.sect t) := hwf _ (by simp)
        obtain ⟨-, htal⟩ := hsectWF
        constructor
        · intro seg hseg
          rcases List.mem_append.mp hseg with h1 | h2
          · exact hwf seg (List.mem_append.mpr (Or.inl h1))
          · have : seg = Segment.sect (t ++ [c]) := by simpa using h2
            subst this
            refine ⟨by simp, ?_⟩
            intro ch hch
            rcases List.mem_append.mp hch with h3 | h4
            · exact htal ch h3
            · have : ch = c := by simpa using h4
              subst this
              exact hc
        · obtain ⟨hl, -, hsep⟩ := List.chain'_append.mp hchain
          refine List.chain'_append.mpr ⟨hl, List.chain'_singleton _, ?_⟩
          intro x hx y hy
          have hy' : Segment.sect (t ++ [c]) = y := by simpa using hy
          subst hy'
          have := hsep x hx (Segment.sect t) (by simp)
          rcases this with h1 | h2
          · exact Or.inl h1
          · simp [isSect] at h2
  · have hpush : segPush alnum acc c = acc ++ [Segment.delim c] := by
      simp [segPush, hc]
    rw [hpush]
    constructor
    · intro seg hseg
      rcases List.mem_append.mp hseg with h1 | h2
      · exact hwf seg h1
      · have : seg = Segment.delim c := by simpa using h2
        subst this
        simpa [segWF] using hc
    · refine List.chain'_append.mpr ⟨hchain, List.chain'_singleton _, ?_⟩
      intro x hx y hy
      have hy' : Segment.delim c = y := by simpa using hy
      subst hy'
      exact Or.inr rfl

lemma foldl_segPush_segsWF (alnum : Char → Bool) (s : List Char) :
    ∀ acc, segsWF alnum acc → segsWF alnum (s.foldl (segPush alnum) acc) := by
  induction s with
  | nil => intro acc h; exact h
  | cons c s ih => intro acc h; exact ih _ (segPush_segsWF alnum acc c h)

lemma to_segments_segsWF (alnum : Char → Bool) (s : List Char) :
    segsWF alnum (to_segments alnum s) :=
  foldl_segPush_segsWF alnum s [] ⟨by simp, List.chain'_nil⟩

lemma chunkText_tailChunk (red : Bool) (seg : Segment) :
    chunkText (tailChunk red seg) = segText seg := by
  cases seg with
  | delim c => rfl
  | sect t => cases red <;> rfl

lemma chunkText_sectionChunk (red : Bool) (a b : List Char) :
    chunkText (sectionChunk red a b) = b := by
  cases red <;> by_cases h : a ≠ b <;> simp [sectionChunk, h, chunkText]

lemma colorDiffAux_map_chunkText (red : Bool) :
    ∀ (bs : List Segment) (a_sections : List (List Char)),
      (colorDiffAux red a_sections bs).map chunkText = bs.map segText := by
  intro bs
  induction bs with
  | nil =>
    intro a_sections
    cases a_sections <;> simp [colorDiffAux]
  | cons seg bs ih =>
    intro a_sections
    cases a_sections with
    | nil => simp [colorDiffAux, List.map_map, Function.comp_def, chunkText_tailChunk]
    | cons a_section a_rest =>
      cases seg with
      | delim c => simp [colorDiffAux, chunkText, segText, ih]
      | sect t => simp [colorDiffAux, chunkText_sectionChunk, segText, ih]

lemma plainText_eq_of_map_chunkText :
    ∀ (cs : List Chunk) (bs : List Segment),
      cs.map chunkText = bs.map segText → plainText cs = flattenSegments bs := by
  intro cs
  induction cs with
  | nil =>
    intro bs h
    cases bs with
    | nil => rfl
    | cons b bs => simp at h
  | cons c cs ih =>
    intro bs h
    cases bs with
    | nil => simp at h
    | cons b bs =>
      simp only [List.map_cons, List.cons.injEq] at h
      simp [plainText, flattenSegments, h.1, ih bs h.2]

/-- Claim C10: the plain text of `color_diff a b red` — its output with all
styling removed — is exactly `b`, for either value of the red flag;
`color_diff` emits each segment of `b` exactly once in order; and
`to_segments` partitions its input: concatenating its segments yields the
input back, every segment is either a single non-alphanumeric delimiter or
a nonempty alphanumeric section, and no two sections are adjacent, so
every section is a maximal alphanumeric run. -/
theorem color_diff_plain_text (alnum : Char → Bool) (a b : List Char) (red : Bool) :
    plainText (color_diff alnum a b red) = b
    ∧ (color_diff alnum a b red).map chunkText = (to_segments alnum b).map segText
    ∧ flattenSegments (to_segments alnum b) = b
    ∧ (∀ seg ∈ to_segments alnum b, segWF alnum seg)
    ∧ List.Chain' sepOk (to_segments alnum b) := by
  have hmap := colorDiffAux_map_chunkText red (to_segments alnum b)
    ((to_segments alnum a).filterMap toSection)
  have hflat := to_segments_flatten alnum b
  have hwf := to_segments_segsWF alnum b
  refine ⟨?_, hmap, hflat, hwf.1, hwf.2⟩
  rw [color_diff, plainText_eq_of_map_chunkText _ _ hmap, hflat]

/-- Witness for C10 at a concrete version-string pair. -/
theorem color_diff_plain_text_witness :
    plainText (color_diff Char.isAlphanum ("1.2.3".data) ("1.2.10".data) true) = "1.2.10".data :=
  (color_diff_plain_text Char.isAlphanum "1.2.3".data "1.2.10".data true).1

/-- Claim C3: the synced set is exactly the finalized packages whose id
equals no installed package's id — all finalized packages when the client
is ephemeral — and the removed set is exactly the installed packages whose
name equals no finalized package's name; synced membership is decided by
package id, removed membership by package name. -/
theorem synced_removed_membership (ephemeral : Bool) (finalized installed : List Package)
    (p : Package) :
    (p ∈ syncedList ephemeral finalized installed
      ↔ p ∈ finalized ∧ (ephemeral = true ∨ ∀ i ∈ installed, i.id ≠ p.id))
    ∧ (p ∈ removedList finalized installed
      ↔ p ∈ installed ∧ ∀ f ∈ finalized, f.meta.name ≠ p.meta.name) := by
  constructor
  · simp only [syncedList, List.mem_filter, Bool.or_eq_true, Bool.not_eq_true',
      List.any_eq_false, beq_iff_eq, ne_eq]
  · simp only [removedList, List.mem_filter, Bool.not_eq_true', List.any_eq_false,
      beq_iff_eq, ne_eq]

/-- Witness for C3 at a concrete diff: an up-to-date installed package is
neither synced nor removed, a new package is synced, an orphan is removed. -/
theorem synced_removed_membership_witness :
    (mkPkg "b-2" "b" true [] ∈ syncedList false [mkPkg "a-1" "a" true [], mkPkg "b-2" "b" true []]
        [mkPkg "a-1" "a" true [], mkPkg "c-1" "c" false []]
      ↔ mkPkg "b-2" "b" true [] ∈ [mkPkg "a-1" "a" true [], mkPkg "b-2" "b" true []]
        ∧ (false = true ∨ ∀ i ∈ [mkPkg "a-1" "a" true [], mkPkg "c-1" "c" false []],
            i.id ≠ (mkPkg "b-2" "b" true []).id)) := by
  have h := (synced_removed_membership false [mkPkg "a-1" "a" true [], mkPkg "b-2" "b" true []]
    [mkPkg "a-1" "a" true [], mkPkg "c-1" "c" false []] (mkPkg "b-2" "b" true [])).1
  exact h

/-- Claim C5: in a sync driven by a system model, every resulting selection
carries the package's new id and reason `None`, and is explicit exactly
when the model's declared package set intersects the package's provider
set. -/
theorem system_model_selection_explicit (m : SystemModel) (finalized : List Package)
    (k : Nat) (p : Package) (hk : finalized[k]? = some p) :
    ∃ sel, (newSelectionsModel m finalized)[k]? = some sel
      ∧ sel.package = p.id
      ∧ sel.reason = none
      ∧ (sel.explicit = true ↔ ∃ q ∈ m.packages, q ∈ p.meta.providers) := by
  refine ⟨{ package := p.id,
            explicit := m.packages.any (fun q => p.meta.providers.contains q),
            reason := none }, ?_, rfl, rfl, ?_⟩
  · rw [newSelectionsModel, List.getElem?_map, hk]
    rfl
  · simp [List.any_eq_true]

/-- Witness for C5: a package providing a declared provider is explicit. -/
theorem system_model_selection_explicit_witness :
    ([pkgC5] : List Package)[0]? = some pkgC5
    ∧ ∃ sel, (newSelectionsModel mC5 [pkgC5])[0]? = some sel
      ∧ sel.package = pkgC5.id
      ∧ sel.reason = none
      ∧ (sel.explicit = true ↔ ∃ q ∈ mC5.packages, q ∈ pkgC5.meta.providers) :=
  ⟨rfl, system_model_selection_explicit mC5 [pkgC5] 0 pkgC5 rfl⟩

/-- Claim C8: for `state export`, no `--output` selects stdout; `--output`
without a path selects `./<default filename>`; an `--output` path that is
a directory gets the default filename joined onto it; any other path is
used exactly as supplied; and the default filename is
`system-model-<hostname>-fstxn-<id>.kdl`, without the hostname part when
the hostname is unavailable. -/
theorem export_destination_cases (hostname : Option String) (is_dir : String → Bool)
    (id : Int) (path host : String) :
    exportDestination none hostname is_dir id = ExportDest.stdout
    ∧ exportDestination (some none) hostname is_dir id
        = ExportDest.file ("." ++ "/" ++ format_filename hostname id)
    ∧ (is_dir path = true → exportDestination (some (some path)) hostname is_dir id
        = ExportDest.file (path ++ "/" ++ format_filename hostname id))
    ∧ (is_dir path = false → exportDestination (some (some path)) hostname is_dir id
        = ExportDest.file path)
    ∧ format_filename (some host) id = "system-model-" ++ host ++ "-fstxn-" ++ toString id ++ ".kdl"
    ∧ format_filename none id = "system-model-fstxn-" ++ toString id ++ ".kdl" := by
  refine ⟨rfl, rfl, ?_, ?_, rfl, rfl⟩
  · intro hdir
    simp [exportDestination, hdir, pathJoin]
  · intro hdir
    simp [exportDestination, hdir]

/-- Witness for C8: a directory output path gets the default filename. -/
theorem export_destination_witness :
    ((fun s => s == "outdir") "outdir" = true)
    ∧ exportDestination (some (some "outdir")) (some "host") (fun s => s == "outdir") 42
        = ExportDest.file ("outdir" ++ "/" ++ format_filename (some "host") 42) :=
  ⟨rfl, (export_destination_cases (some "host") (fun s => s == "outdir") 42 "outdir" "host").2.2.1 rfl⟩

lemma print_state_selections_length (by_id : String → List Package) (selections : List Selection) :
    (print_state_selections by_id selections).length
      = (selections.filter (fun s => !(by_id s.package).isEmpty)).length := by
  induction selections with
  | nil => rfl
  | cons s rest ih =>
    rcases hb : by_id s.package with _ | ⟨q, qs⟩
    · simpa [print_state_selections, List.filterMap_cons, List.filter_cons, hb] using ih
    · simpa [print_state_selections, List.filterMap_cons, List.filter_cons, hb] using ih

/-- Claim C9: a state query renders a selection only when its package id
resolves through the registry `by_id` lookup; selections whose package no
longer exists are silently omitted, so the number of rendered rows is the
number of resolvable selections, never exceeds the state's selection
count, and is strictly smaller as soon as one selection fails to resolve. -/
theorem query_renders_resolvable_selections (by_id : String → List Package)
    (selections : List Selection) :
    (print_state_selections by_id selections).length
        = (selections.filter (fun s => !(by_id s.package).isEmpty)).length
    ∧ (print_state_selections by_id selections).length ≤ selections.length
    ∧ ((∃ s ∈ selections, by_id s.package = []) →
        (print_state_selections by_id selections).length < selections.length) := by
  have hlen := print_state_selections_length by_id selections
  refine ⟨hlen, ?_, ?_⟩
  · rw [hlen]
    exact List.length_filter_le _ _
  · rintro ⟨s, hs, hb⟩
    rw [hlen]
    have hsplit := List.length_eq_length_filter_add (l := selections)
      (fun s => !(by_id s.package).isEmpty)
    have hmem : s ∈ selections.filter (fun s2 => !(!(by_id s2.package).isEmpty)) :=
      List.mem_filter.mpr ⟨hs, by simp [hb]⟩
    have hpos : 0 < (selections.filter (fun s2 => !(!(by_id s2.package).isEmpty))).length :=
      List.length_pos_of_mem hmem
    omega

/-- Witness for C9: with one unresolvable selection, fewer rows than
selections are rendered. -/
theorem query_renders_resolvable_selections_witness :
    (∃ s ∈ selsC9, byIdC9 s.package = [])
    ∧ (print_state_selections byIdC9 selsC9).length < selsC9.length :=
  ⟨by decide, (query_renders_resolvable_selections byIdC9 selsC9).2.2 (by decide)⟩

/-- Claim C1: in a sync without a system model, each finalized package's
selection carries over the explicit flag and reason of the previous active
state's selection whose package id equals `lookup_id` — the id of the
first same-named installed package, or the package's own id when none
exists — with the selection's package id replaced by the package's new id,
and defaults to explicit = false, reason = `None` when no such previous
selection exists.  Consequently a package explicit in the previous active
state remains explicit after a version bump, and a package with no
matching previous selection never becomes explicit. -/
theorem installed_selection_carry_over (installed : List Package)
    (previous_selections : List Selection) (finalized : List Package)
    (k : Nat) (p : Package) (hk : finalized[k]? = some p) :
    (newSelectionsInstalled installed previous_selections finalized).length = finalized.length
    ∧ ∃ sel, (newSelectionsInstalled installed previous_selections finalized)[k]? = some sel
      ∧ sel.package = p.id
      ∧ (match previous_selections.find? (fun s => s.package == lookup_id installed p) with
         | some s => sel.explicit = s.explicit ∧ sel.reason = s.reason
         | none => sel.explicit = false ∧ sel.reason = none)
      ∧ (∀ s, previous_selections.find? (fun s2 => s2.package == lookup_id installed p) = some s →
          s.explicit = true → sel.explicit = true)
      ∧ (previous_selections.find? (fun s2 => s2.package == lookup_id installed p) = none →
          sel.explicit = false ∧ sel.reason = none) := by
  constructor
  · simp [newSelectionsInstalled]
  · have hmap : (newSelectionsInstalled installed previous_selections finalized)[k]?
        = some (match previous_selections.find? (fun s => s.package == lookup_id installed p) with
                | some s => { s with package := p.id }
                | none => { package := p.id, explicit := false, reason := none }) := by
      simp only [newSelectionsInstalled, List.getElem?_map, hk, Option.map_some']
    rcases hfind : previous_selections.find? (fun s => s.package == lookup_id installed p) with _ | s
    · rw [hfind] at hmap
      refine ⟨_, hmap, rfl, ?_, ?_, ?_⟩
      · rw [hfind]
        exact ⟨rfl, rfl⟩
      · intro s hs
        rw [hfind] at hs
        exact absurd hs (by simp)
      · intro _
        exact ⟨rfl, rfl⟩
    · rw [hfind] at hmap
      refine ⟨_, hmap, rfl, ?_, ?_, ?_⟩
      · rw [hfind]
        exact ⟨rfl, rfl⟩
      · intro s2 hs2 hex
        rw [hfind] at hs2
        have hss : s = s2 := Option.some.inj hs2
        subst hss
        exact hex
      · intro hnone
        rw [hfind] at hnone
        exact absurd hnone (by simp)

/-- Witness for C1: an explicit selection survives a version bump of `a`
from id `a-1` to id `a-2`, keeping its reason under the new id. -/
theorem installed_selection_carry_over_witness :
    finC1[0]? = some (mkPkg "a-2" "a" true [])
    ∧ ((newSelectionsInstalled instC1 prevC1 finC1).length = finC1.length
      ∧ ∃ sel, (newSelectionsInstalled instC1 prevC1 finC1)[0]? = some sel
        ∧ sel.package = (mkPkg "a-2" "a" true []).id
        ∧ (match prevC1.find? (fun s => s.package == lookup_id instC1 (mkPkg "a-2" "a" true [])) with
           | some s => sel.explicit = s.explicit ∧ sel.reason = s.reason
           | none => sel.explicit = false ∧ sel.reason = none)
        ∧ (∀ s, prevC1.find? (fun s2 => s2.package == lookup_id instC1 (mkPkg "a-2" "a" true [])) = some s →
            s.explicit = true → sel.explicit = true)
        ∧ (prevC1.find? (fun s2 => s2.package == lookup_id instC1 (mkPkg "a-2" "a" true [])) = none →
            sel.explicit = false ∧ sel.reason = none)) :=
  ⟨rfl, installed_selection_carry_over instC1 prevC1 finC1 0 (mkPkg "a-2" "a" true []) rfl⟩

lemma filterMap_guard_eq {α β : Type} (q : α → Bool) (g : α → β) :
    ∀ l : List α, (l.filterMap (fun a => if q a then some (g a) else none)) = (l.filter q).map g := by
  intro l
  induction l with
  | nil => rfl
  | cons a l ih =>
    rcases hq : q a with _ | _
    · simp [List.filterMap_cons, List.filter_cons, hq, ih]
    · simp [List.filterMap_cons, List.filter_cons, hq, ih]

lemma with_sync_filterMap_aux (by_name : String → List Package) (all_ids : List String) :
    ∀ l : List Package,
      (l.filterMap (fun p =>
          if !p.flags.explicit then none
          else
            match (by_name p.meta.name).head? with
            | some lookup =>
              if !(all_ids.contains lookup.id) then some lookup.id else some p.id
            | none => some p.id))
        = (l.filter (fun p => p.flags.explicit)).map (fun p =>
            match (by_name p.meta.name).head? with
            | some lookup => if all_ids.contains lookup.id then p.id else lookup.id
            | none => p.id) := by
  intro l
  have hf : (fun p : Package =>
      if !p.flags.explicit then none
      else
        match (by_name p.meta.name).head? with
        | some lookup =>
          if !(all_ids.contains lookup.id) then some lookup.id else some p.id
        | none => some p.id)
      = (fun p : Package =>
          if p.flags.explicit then
            some (match (by_name p.meta.name).head? with
              | some lookup => if all_ids.contains lookup.id then p.id else lookup.id
              | none => p.id)
          else none) := by
    funext p
    rcases hp : p.flags.explicit with _ | _
    · rfl
    · rcases hh : (by_name p.meta.name).head? with _ | ⟨lookup⟩
      · rfl
      · show (if (!all_ids.contains lookup.id) = true then some lookup.id else some p.id)
            = some (if all_ids.contains lookup.id = true then p.id else lookup.id)
        rcases hc : all_ids.contains lookup.id with _ | _ <;> rfl
  rw [hf]
  exact filterMap_guard_eq (fun p => p.flags.explicit)
    (fun p => match (by_name p.meta.name).head? with
      | some lookup => if all_ids.contains lookup.id then p.id else lookup.id
      | none => p.id) l

/-- Claim C4: in a sync without a system model, `resolve_with_installed`
seeds the transaction with exactly the explicit installed packages — each
replaced by the id of its first (highest-priority) available same-named
candidate from `by_name`, but only when that candidate's id is not already
among the ids of all installed packages, and kept as the original id
otherwise — and resolves the transaction under the `PreferAvailable`
strategy. -/
theorem resolve_with_installed_seeds (env : SyncEnv) (hmodel : env.system_model = none) :
    with_sync env.by_name_available env.list_installed
      = (env.list_installed.filter (fun p => p.flags.explicit)).map (fun p =>
          match (env.by_name_available p.meta.name).head? with
          | some lookup =>
            if (env.list_installed.map (fun i => i.id)).contains lookup.id then p.id else lookup.id
          | none => p.id)
    ∧ resolvePhase env
      = (env.txResult Lookup.preferAvailable (with_sync env.by_name_available env.list_installed),
        [Event.txCreated Lookup.preferAvailable (with_sync env.by_name_available env.list_installed)]) := by
  constructor
  · simp only [with_sync]
    exact with_sync_filterMap_aux env.by_name_available
      (env.list_installed.map (fun p => p.id)) env.list_installed
  · simp [resolvePhase, hmodel, resolveWithInstalled]

lemma resolvePhase_events (env : SyncEnv) (r : Except Error (List Package)) (evs : List Event)
    (h : resolvePhase env = (r, evs)) :
    ∀ e ∈ evs, ∃ st seeds, e = Event.txCreated st seeds := by
  intro e he
  rcases hm : env.system_model with _ | ⟨m⟩
  · simp only [resolvePhase, hm, resolveWithInstalled] at h
    injection h with h1 h2
    subst h2
    have := List.mem_singleton.mp he
    exact ⟨_, _, this⟩
  · rcases hl : lookupModelPackages env.by_provider_available m.packages with ⟨p⟩ | ⟨pkgs⟩
    · simp only [resolvePhase, hm, resolveWithSystemModel, hl] at h
      injection h with h1 h2
      subst h2
      exact absurd he (List.not_mem_nil e)
    · simp only [resolvePhase, hm, resolveWithSystemModel, hl] at h
      injection h with h1 h2
      subst h2
      have := List.mem_singleton.mp he
      exact ⟨_, _, this⟩

lemma statePhase_trace (env : SyncEnv) (installed finalized : List Package) (evs : List Event) :
    (statePhase env installed finalized evs).2 = evs
    ∨ ∃ sels, (statePhase env installed finalized evs).2 = evs ++ [Event.newState sels] := by
  rcases hsel : selectionPhase env installed finalized with ⟨e⟩ | ⟨sels⟩
  · left
    simp [statePhase, hsel]
  · rcases hns : env.new_state sels with ⟨u⟩ | ⟨u⟩
    · exact Or.inr ⟨sels, by simp [statePhase, hsel, hns]⟩
    · exact Or.inr ⟨sels, by simp [statePhase, hsel, hns]⟩

lemma cachePhase_trace (env : SyncEnv) (installed finalized synced : List Package)
    (evs : List Event) :
    (cachePhase env installed finalized synced evs).2
        = evs ++ [Event.cachePackages (synced.map (fun p => p.id))]
    ∨ ∃ sels, (cachePhase env installed finalized synced evs).2
        = (evs ++ [Event.cachePackages (synced.map (fun p => p.id))]) ++ [Event.newState sels] := by
  rcases hc : env.cache_packages (synced.map (fun p => p.id)) with ⟨u⟩ | ⟨u⟩
  · left
    simp [cachePhase, hc]
  · rcases statePhase_trace env installed finalized
      (evs ++ [Event.cachePackages (synced.map (fun p => p.id))]) with hst | ⟨sels, hst⟩
    · left
      simpa [cachePhase, hc] using hst
    · right
      exact ⟨sels, by simpa [cachePhase, hc] using hst⟩

/-- Claim C2: with a non-empty synced or removed set, sync proceeds only
after confirmation — auto-approved under yes-to-all, otherwise an
interactive prompt whose default answer is no — a declined confirmation
returns the `Cancelled` error before `cache_packages` and before
`new_state` are called, and a `cache_packages` failure propagates before
`new_state`, so no state is committed on a failed fetch. -/
theorem sync_confirmation_gate (env : SyncEnv) (finalized : List Package) (evs0 : List Event)
    (hres : resolvePhase env = (Except.ok finalized, evs0))
    (hne : ¬(syncedList env.is_ephemeral finalized env.list_installed = []
        ∧ removedList finalized env.list_installed = [])) :
    (env.yesAll = true → Event.confirmPrompt ∉ (handle env).2)
    ∧ (env.yesAll = false → ∀ ans, env.confirm_answer = Except.ok ans →
        ans.getD confirmDefault = false →
        handle env = (Except.error Error.cancelled, evs0 ++ [Event.confirmPrompt])
        ∧ (∀ ids, Event.cachePackages ids ∉ (handle env).2)
        ∧ (∀ sels, Event.newState sels ∉ (handle env).2))
    ∧ ((∃ ids, Event.cachePackages ids ∈ (handle env).2) →
        env.yesAll = true
        ∨ ∃ ans, env.confirm_answer = Except.ok ans ∧ ans.getD confirmDefault = true)
    ∧ (env.cache_packages ((syncedList env.is_ephemeral finalized env.list_installed).map (fun p => p.id))
          = Except.error () →
        (env.yesAll = true ∨ ∃ ans, env.confirm_answer = Except.ok ans ∧ ans.getD confirmDefault = true) →
        (handle env).1 = Except.error Error.client
        ∧ ∀ sels, Event.newState sels ∉ (handle env).2) := by
  have hafter : handle env = afterResolve env env.list_installed finalized evs0 := by
    simp only [handle, hres]
  have hsr : ((syncedList env.is_ephemeral finalized env.list_installed).isEmpty
      && (removedList finalized env.list_installed).isEmpty) = false := by
    rcases not_and_or.mp hne with h | h
    · have hs : (syncedList env.is_ephemeral finalized env.list_installed).isEmpty = false := by
        refine Bool.eq_false_iff.mpr ?_
        intro ht
        exact h (List.isEmpty_iff.mp ht)
      rw [hs, Bool.false_and]
    · have hr : (removedList finalized env.list_installed).isEmpty = false := by
        refine Bool.eq_false_iff.mpr ?_
        intro ht
        exact h (List.isEmpty_iff.mp ht)
      rw [hr, Bool.and_false]
  have hconfirm : handle env = confirmPhase env env.list_installed finalized
      (syncedList env.is_ephemeral finalized env.list_installed) evs0 := by
    rw [hafter]
    simp only [afterResolve, hsr, Bool.false_eq_true, if_false]
  have hnotx : ∀ e ∈ evs0, ∃ st seeds, e = Event.txCreated st seeds :=
    resolvePhase_events env (Except.ok finalized) evs0 hres
  refine ⟨?_, ?_, ?_, ?_⟩
  · intro hyes hmem
    rw [hconfirm] at hmem
    simp only [confirmPhase, hyes, if_true] at hmem
    rcases cachePhase_trace env env.list_installed finalized
      (syncedList env.is_ephemeral finalized env.list_installed) evs0 with htr | ⟨sels, htr⟩
    · rw [htr] at hmem
      rcases List.mem_append.mp hmem with h0 | h1
      · obtain ⟨st, seeds, hEq⟩ := hnotx _ h0
        exact Event.noConfusion hEq
      · simp at h1
    · rw [htr] at hmem
      rcases List.mem_append.mp hmem with h01 | h1
      · rcases List.mem_append.mp h01 with h0 | h1
        · obtain ⟨st, seeds, hEq⟩ := hnotx _ h0
          exact Event.noConfusion hEq
        · simp at h1
      · simp at h1
  · intro hyes ans hans hdecl
    have hcancel : handle env = (Except.error Error.cancelled, evs0 ++ [Event.confirmPrompt]) := by
      rw [hconfirm]
      simp only [confirmPhase, hyes, Bool.false_eq_true, if_false, hans, hdecl]
    refine ⟨hcancel, ?_, ?_⟩
    · intro ids hmem
      rw [hcancel] at hmem
      rcases List.mem_append.mp hmem with h0 | h1
      · obtain ⟨st, seeds, hEq⟩ := hnotx _ h0
        exact Event.noConfusion hEq
      · simp at h1
    · intro sels hmem
      rw [hcancel] at hmem
      rcases List.mem_append.mp hmem with h0 | h1
      · obtain ⟨st, seeds, hEq⟩ := hnotx _ h0
        exact Event.noConfusion hEq
      · simp at h1
  · rintro ⟨ids, hmem⟩
    rcases hy : env.yesAll with _ | _
    · rcases ha : env.confirm_answer with ⟨u⟩ | ⟨ans⟩
      · have htr : (handle env).2 = evs0 ++ [Event.confirmPrompt] := by
          rw [hconfirm]
          simp only [confirmPhase, hy, Bool.false_eq_true, if_false, ha]
        rw [htr] at hmem
        rcases List.mem_append.mp hmem with h0 | h1
        · obtain ⟨st, seeds, hEq⟩ := hnotx _ h0
          exact Event.noConfusion hEq
        · simp at h1
      · rcases hd : ans.getD confirmDefault with _ | _
        · have htr : (handle env).2 = evs0 ++ [Event.confirmPrompt] := by
            rw [hconfirm]
            simp only [confirmPhase, hy, Bool.false_eq_true, if_false, ha, hd]
          rw [htr] at hmem
          rcases List.mem_append.mp hmem with h0 | h1
          · obtain ⟨st, seeds, hEq⟩ := hnotx _ h0
            exact Event.noConfusion hEq
          · simp at h1
        · exact Or.inr ⟨ans, rfl, hd⟩
    · exact Or.inl rfl
  · intro hcache hpass
    have hfail : ∀ evs, cachePhase env env.list_installed finalized
        (syncedList env.is_ephemeral finalized env.list_installed) evs
        = (Except.error Error.client,
          evs ++ [Event.cachePackages
            ((syncedList env.is_ephemeral finalized env.list_installed).map (fun p => p.id))]) := by
      intro evs
      simp only [cachePhase, hcache]
    rcases hy : env.yesAll with _ | _
    · rcases hpass with hyT | ⟨ans, ha, hd⟩
      · rw [hy] at hyT
        exact Bool.noConfusion hyT
      · have hh : handle env = (Except.error Error.client,
            (evs0 ++ [Event.confirmPrompt]) ++ [Event.cachePackages
              ((syncedList env.is_ephemeral finalized env.list_installed).map (fun p => p.id))]) := by
          rw [hconfirm]
          simp only [confirmPhase, hy, Bool.false_eq_true, if_false, ha, hd, if_true]
          exact hfail (evs0 ++ [Event.confirmPrompt])
        rw [hh]
        refine ⟨rfl, ?_⟩
        intro sels hmem
        rcases List.mem_append.mp hmem with h01 | h1
        · rcases List.mem_append.mp h01 with h0 | h1
          · obtain ⟨st, seeds, hEq⟩ := hnotx _ h0
            exact Event.noConfusion hEq
          · simp at h1
        · simp at h1
    · have hh : handle env = (Except.error Error.client,
          evs0 ++ [Event.cachePackages
            ((syncedList env.is_ephemeral finalized env.list_installed).map (fun p => p.id))]) := by
        rw [hconfirm]
        simp only [confirmPhase, hy, if_true]
        exact hfail evs0
      rw [hh]
      refine ⟨rfl, ?_⟩
      intro sels hmem
      rcases List.mem_append.mp hmem with h0 | h1
      · obtain ⟨st, seeds, hEq⟩ := hnotx _ h0
        exact Event.noConfusion hEq
      · simp at h1

/-- Witness for C2: with one package to sync and the prompt answered by
its default, sync is cancelled after the prompt with no cache or state
events. -/
theorem sync_confirmation_gate_witness :
    resolvePhase envC2 = (Except.ok [mkPkg "a-1" "a" true []],
      [Event.txCreated Lookup.preferAvailable []])
    ∧ ¬(syncedList envC2.is_ephemeral [mkPkg "a-1" "a" true []] envC2.list_installed = []
        ∧ removedList [mkPkg "a-1" "a" true []] envC2.list_installed = [])
    ∧ handle envC2 = (Except.error Error.cancelled,
        [Event.txCreated Lookup.preferAvailable [], Event.confirmPrompt]) := by
  have h := sync_confirmation_gate envC2 [mkPkg "a-1" "a" true []]
    [Event.txCreated Lookup.preferAvailable []] rfl (by decide)
  exact ⟨rfl, by decide, (h.2.1 rfl none rfl rfl).1⟩

lemma lookupModelPackages_error_of_missing (by_provider : String → List Package) :
    ∀ ps : List String, (∃ p ∈ ps, by_provider p = []) →
      ∃ q ∈ ps, by_provider q = [] ∧ lookupModelPackages by_provider ps = Except.error q := by
  intro ps
  induction ps with
  | nil =>
    rintro ⟨p, hp, -⟩
    exact absurd hp (List.not_mem_nil p)
  | cons p rest ih =>
    rintro ⟨x, hx, hbx⟩
    rcases hh : (by_provider p).head? with _ | ⟨pkg⟩
    · refine ⟨p, List.mem_cons_self p rest, List.head?_eq_none_iff.mp hh, ?_⟩
      simp [lookupModelPackages, hh]
    · have hpne : by_provider p ≠ [] := by
        intro hnil
        rw [hnil] at hh
        simp at hh
      have hxrest : x ∈ rest := by
        rcases List.mem_cons.mp hx with hxp | hxr
        · subst hxp
          exact absurd hbx hpne
        · exact hxr
      obtain ⟨q, hq, hbq, herr⟩ := ih ⟨x, hxrest, hbx⟩
      refine ⟨q, List.mem_cons_of_mem p hq, hbq, ?_⟩
      simp [lookupModelPackages, hh, herr]

lemma lookupModelPackages_ok_getElem (by_provider : String → List Package) :
    ∀ (ps : List String) (pkgs : List Package),
      lookupModelPackages by_provider ps = Except.ok pkgs →
      ∀ k : Nat, pkgs[k]? = ps[k]?.bind (fun p => (by_provider p).head?) := by
  intro ps
  induction ps with
  | nil =>
    intro pkgs h k
    have hp : pkgs = [] := by
      simp [lookupModelPackages] at h
      exact h
    subst hp
    simp
  | cons p rest ih =>
    intro pkgs h k
    rcases hh : (by_provider p).head? with _ | ⟨pkg⟩
    · simp [lookupModelPackages, hh] at h
    · rcases hrest : lookupModelPackages by_provider rest with ⟨q⟩ | ⟨pkgs2⟩
      · simp [lookupModelPackages, hh, hrest] at h
      · simp [lookupModelPackages, hh, hrest] at h
        subst h
        cases k with
        | zero => simp [hh]
        | succ k2 => simp [List.getElem?_cons_succ, ih pkgs2 hrest k2]

/-- Claim C6: in a sync driven by a system model, each declared provider
resolves to the first available candidate of `by_provider_id_only`; if any
provider yields no candidate, sync fails with `MissingSystemModelPackage`
naming a candidate-less declared provider before any transaction is
created, so no confirmation, fetch or state-commit event occurs; when all
providers resolve, the transaction completing their transitive
dependencies runs under the `AvailableOnly` strategy. -/
theorem system_model_resolution (env : SyncEnv) (m : SystemModel)
    (hm : env.system_model = some m) :
    ((∃ p ∈ m.packages, env.by_provider_available p = []) →
      ∃ q ∈ m.packages, env.by_provider_available q = []
        ∧ handle env = (Except.error (Error.missingSystemModelPackage q), []))
    ∧ (∀ pkgs, lookupModelPackages env.by_provider_available m.packages = Except.ok pkgs →
        (∀ k : Nat, pkgs[k]? = m.packages[k]?.bind (fun p => (env.by_provider_available p).head?))
        ∧ resolveWithSystemModel env m
          = (env.txResult Lookup.availableOnly (pkgs.map (fun pkg => pkg.id)),
            [Event.txCreated Lookup.availableOnly (pkgs.map (fun pkg => pkg.id))])) := by
  constructor
  · intro hex
    obtain ⟨q, hq, hbq, herr⟩ :=
      lookupModelPackages_error_of_missing env.by_provider_available m.packages hex
    refine ⟨q, hq, hbq, ?_⟩
    simp only [handle, resolvePhase, hm, resolveWithSystemModel, herr]
  · intro pkgs hok
    refine ⟨lookupModelPackages_ok_getElem env.by_provider_available m.packages pkgs hok, ?_⟩
    simp only [resolveWithSystemModel, hok]

/-- Witness for C6: a declared provider with no candidate fails the sync
with an empty event trace. -/
theorem system_model_resolution_witness :
    envC6.system_model = some (SystemModel.mk ["p1"])
    ∧ ∃ q ∈ (SystemModel.mk ["p1"]).packages, envC6.by_provider_available q = []
        ∧ handle envC6 = (Except.error (Error.missingSystemModelPackage q), []) :=
  ⟨rfl, (system_model_resolution envC6 (SystemModel.mk ["p1"]) rfl).1 ⟨"p1", by decide, rfl⟩⟩

/-- Claim C7: when both the synced and removed sets are empty, sync
reports that there is nothing to sync and returns success without
prompting, without calling `cache_packages` and without creating a new
state. -/
theorem sync_noop (env : SyncEnv) (finalized : List Package) (evs0 : List Event)
    (hres : resolvePhase env = (Except.ok finalized, evs0))
    (hs : syncedList env.is_ephemeral finalized env.list_installed = [])
    (hr : removedList finalized env.list_installed = []) :
    handle env = (Except.ok (), evs0 ++ [Event.printNoPackagesToSync])
    ∧ Event.confirmPrompt ∉ (handle env).2
    ∧ (∀ ids, Event.cachePackages ids ∉ (handle env).2)
    ∧ (∀ sels, Event.newState sels ∉ (handle env).2) := by
  have hnotx : ∀ e ∈ evs0, ∃ st seeds, e = Event.txCreated st seeds :=
    resolvePhase_events env (Except.ok finalized) evs0 hres
  have hmain : handle env = (Except.ok (), evs0 ++ [Event.printNoPackagesToSync]) := by
    simp only [handle, hres, afterResolve, hs, hr, List.isEmpty_nil, Bool.and_self, if_true]
  refine ⟨hmain, ?_, ?_, ?_⟩
  · intro hmem
    rw [hmain] at hmem
    rcases List.mem_append.mp hmem with h0 | h1
    · obtain ⟨st, seeds, hEq⟩ := hnotx _ h0
      exact Event.noConfusion hEq
    · simp at h1
  · intro ids hmem
    rw [hmain] at hmem
    rcases List.mem_append.mp hmem with h0 | h1
    · obtain ⟨st, seeds, hEq⟩ := hnotx _ h0
      exact Event.noConfusion hEq
    · simp at h1
  · intro sels hmem
    rw [hmain] at hmem
    rcases List.mem_append.mp hmem with h0 | h1
    · obtain ⟨st, seeds, hEq⟩ := hnotx _ h0
      exact Event.noConfusion hEq
    · simp at h1

/-- Witness for C7: an empty diff ends the sync successfully right after
the no-op report. -/
theorem sync_noop_witness :
    resolvePhase envC7 = (Except.ok [], [Event.txCreated Lookup.preferAvailable []])
    ∧ handle envC7 = (Except.ok (),
        [Event.txCreated Lookup.preferAvailable [], Event.printNoPackagesToSync]) :=
  ⟨rfl, (sync_noop envC7 [] [Event.txCreated Lookup.preferAvailable []] rfl rfl rfl).1⟩

/-- Witness for C4: the explicit package `a-1` is replaced by the
available candidate `a-2`, the non-explicit package `d-1` is dropped, and
the transaction runs under `PreferAvailable`. -/
theorem resolve_with_installed_seeds_witness :
    envC4.system_model = none
    ∧ (with_sync envC4.by_name_available envC4.list_installed
        = (envC4.list_installed.filter (fun p => p.flags.explicit)).map (fun p =>
            match (envC4.by_name_available p.meta.name).head? with
            | some lookup =>
              if (envC4.list_installed.map (fun i => i.id)).contains lookup.id then p.id
              else lookup.id
            | none => p.id)
      ∧ resolvePhase envC4
        = (envC4.txResult Lookup.preferAvailable (with_sync envC4.by_name_available envC4.list_installed),
          [Event.txCreated Lookup.preferAvailable (with_sync envC4.by_name_available envC4.list_installed)])) :=
  ⟨rfl, resolve_with_installed_seeds envC4 rfl⟩

end Moss
